import Mathlib

/-!
Verification of the GrIOt I/O call-stack predictor.

This file is a shallow embedding of the prediction engine found in
`src/shared/backtrace.c` (MurmurHash64A), `src/per-process/griot_model.c`,
`src/per-open/griot_model.c` and the environment handling of
`src/shared/griot_tracer.c`, together with proofs about it.

Machine `uint64_t` values are modelled as `Nat` with explicit reduction
`% 2 ^ 64` wherever C multiplication can overflow; `^` (xor) and `>>`
never enlarge their operands so they need no reduction.  Hash maps are
modelled as functions `Nat → Option _`; the C "previous node" pointer is
modelled by the key of the node it points to (the pointed-to
`griot_prediction_data` objects are individually `malloc`ed and never
move, so a key identifies the object).  The call-stack hash delivered by
`get_hash_for_current_backtrace` and the measured wall-clock durations
are external inputs of each event and appear as event fields.
-/

namespace Griot

/-- Reduction of a `Nat` to the range of a C `uint64_t`. -/
def u64mask (x : Nat) : Nat := x % 2 ^ 64

/-- Constant `m` of MurmurHash2 64A (`backtrace.c` line 59). -/
def murmur_m : Nat := 0xc6a4a7935bd1e995

/-- Constant `r` of MurmurHash2 64A (`backtrace.c` line 60). -/
def murmur_r : Nat := 47

/-- One round of the MurmurHash64A main loop
(`k *= m; k ^= k >> r; k *= m; h ^= k; h *= m`, `backtrace.c` line 69). -/
def murmurMix (h k : Nat) : Nat :=
  let k1 := u64mask (k * murmur_m)
  let k2 := k1 ^^^ (k1 >>> murmur_r)
  let k3 := u64mask (k2 * murmur_m)
  u64mask ((h ^^^ k3) * murmur_m)

/-- Little-endian value of a byte list, as read by `*data` on a
64-bit little-endian machine (`backtrace.c` line 68). -/
def leWord : List Nat → Nat
  | [] => 0
  | b :: rest => b + 256 * leWord rest

/-- The full 8-byte words of a byte buffer, in order
(`data` .. `end` traversal, `backtrace.c` lines 64-70). -/
def chunkWords : List Nat → List Nat
  | b0 :: b1 :: b2 :: b3 :: b4 :: b5 :: b6 :: b7 :: rest =>
      leWord [b0, b1, b2, b3, b4, b5, b6, b7] :: chunkWords rest
  | _ => []

/-- The trailing `len & 7` bytes of a byte buffer
(`data2`, `backtrace.c` line 72). -/
def chunkTail : List Nat → List Nat
  | _ :: _ :: _ :: _ :: _ :: _ :: _ :: _ :: rest => chunkTail rest
  | l => l

/-- Xor-accumulation of the tail bytes
(`h ^= data2[i] << 8*i` cases of the switch, `backtrace.c` lines 74-82). -/
def tailXor : List Nat → Nat
  | [] => 0
  | b :: rest => b ^^^ (tailXor rest <<< 8)

/-- `MurmurHash64A` of `backtrace.c` lines 57-86, over a byte list.
`len` is the byte count; the final three lines are the finaliser. -/
def MurmurHash64A (key : List Nat) (seed : Nat) : Nat :=
  let len := key.length
  let h0 := seed ^^^ u64mask (len * murmur_m)
  let h1 := (chunkWords key).foldl murmurMix h0
  let tl := chunkTail key
  let h2 := if tl = [] then h1 else u64mask ((h1 ^^^ tailXor tl) * murmur_m)
  let h3 := h2 ^^^ (h2 >>> murmur_r)
  let h4 := u64mask (h3 * murmur_m)
  h4 ^^^ (h4 >>> murmur_r)

/-- `GRIOT_SEED` from `griot_config.h`. -/
def GRIOT_SEED : Nat := 12345678

/-- The 8 bytes of a `uint64_t` in memory order (little endian). -/
def u64ToBytes (x : Nat) : List Nat :=
  [x % 256, x / 2 ^ 8 % 256, x / 2 ^ 16 % 256, x / 2 ^ 24 % 256,
   x / 2 ^ 32 % 256, x / 2 ^ 40 % 256, x / 2 ^ 48 % 256, x / 2 ^ 56 % 256]

/-- Byte image of a `uint64_t` array, as passed to `MurmurHash64A`
with byte length `count * sizeof(unsigned long)`. -/
def wordsToBytes (ws : List Nat) : List Nat := (ws.map u64ToBytes).flatten

/-- The `griot_context` ring buffer: `context` array plus write `index`
(per-process `griot_model.c` lines 67-73, per-open lines 73-78).
The capacity `context_size` is `buf.length`. -/
structure GriotContext where
  buf : List Nat
  idx : Nat
deriving DecidableEq

/-- Writing one call-stack hash into the ring and advancing the index
(`context[index] = call_stack; index += 1; if(index >= context_size) index = 0;`,
per-process `griot_model.c` lines 145-147). -/
def ctxPush (s : GriotContext) (h : Nat) : GriotContext :=
  let buf := s.buf.set s.idx h
  let j := s.idx + 1
  { buf := buf, idx := if buf.length ≤ j then 0 else j }

/-- The `ordered_context` flattening: oldest slot first
(the two copy loops, per-process `griot_model.c` lines 148-150). -/
def orderedContext (s : GriotContext) : List Nat :=
  s.buf.drop s.idx ++ s.buf.take s.idx

/-- The context hash: Murmur64A over the chronological window
(per-process `griot_model.c` line 151). -/
def contextHash (s : GriotContext) : Nat :=
  MurmurHash64A (wordsToBytes (orderedContext s)) GRIOT_SEED

/-- A zeroed ring of capacity `C` (`griot_init`). -/
def ctxInit (C : Nat) : GriotContext :=
  { buf := List.replicate C 0, idx := 0 }

/-- Pushing a whole history of call-stack hashes into a fresh ring of
capacity `C`, oldest event first. -/
def ctxRun (C : Nat) (hs : List Nat) : GriotContext :=
  hs.foldl ctxPush (ctxInit C)

/-- `griot_prediction_data`: one graph node, with the MRU successor and
the two parallel successor arrays (both `griot_model.c` files). -/
structure PredData where
  mru_context_hash : Nat
  mfu_context_hash_list : List Nat
  mfu_weight_list : List Nat
deriving DecidableEq

/-- The back-edge loop over the parallel arrays: first occurrence of `c`
gets its weight incremented, otherwise `(c, 1)` is appended
(per-process `griot_model.c` lines 183-206). -/
def mfuUpdate : List Nat → List Nat → Nat → List Nat × List Nat
  | h :: hs, w :: ws, c =>
      if h = c then (h :: hs, (w + 1) :: ws)
      else
        let p := mfuUpdate hs ws c
        (h :: p.1, w :: p.2)
  | _, _, c => ([c], [1])

/-- The whole back-edge update of a previous node: set its MRU successor
and bump its successor histogram (per-process `griot_model.c` lines 177-207). -/
def recordTransition (nd : PredData) (c : Nat) : PredData :=
  let p := mfuUpdate nd.mfu_context_hash_list nd.mfu_weight_list c
  { mru_context_hash := c, mfu_context_hash_list := p.1, mfu_weight_list := p.2 }

/-- The MFU scan loop with its `best`/`min_weight` accumulators
(per-process `griot_model.c` lines 231-238). -/
def mfuScan : List Nat → List Nat → Nat → Nat → Nat
  | h :: hs, w :: ws, best, minw =>
      if minw < w then mfuScan hs ws h w else mfuScan hs ws best minw
  | _, _, best, _ => best

/-- The MFU prediction of a node: MRU fallback on empty lists, otherwise
the scan started at `best = 0`, `min_weight = 0`
(per-process `griot_model.c` lines 228-240). -/
def predictMfu (nd : PredData) : Nat :=
  if nd.mfu_context_hash_list.length = 0 then nd.mru_context_hash
  else mfuScan nd.mfu_context_hash_list nd.mfu_weight_list 0 0

/-- Iterated `recordTransition`, used to describe every node state the
back-edge update can produce from a fresh node. -/
def applyTransitions (nd : PredData) (cs : List Nat) : PredData :=
  cs.foldl recordTransition nd

/-- Step (4) of `on_io`: the back-edge update applied through the
previous-node borrow.  `prev` is the key of the node the C pointer
`previous_pred_data` points to (`none` models the NULL pointer);
the pointed-to node is mutated in place, i.e. the map is updated at
exactly that key (per-process `griot_model.c` lines 177-207, per-open
lines 297-327). -/
def borrowUpdate (table : Nat → Option PredData) (prev : Option Nat) (ch : Nat) :
    Nat → Option PredData :=
  match prev with
  | none => table
  | some k => fun k2 =>
      if k2 = k then (table k).map (fun nd => recordTransition nd ch)
      else table k2

/-- Step (5)/(6) of `on_io`: look the new context hash up in the
prediction table, inserting the given fresh node when absent
(per-process `griot_model.c` lines 210-221, per-open lines 330-343).
Returns the updated table and the node found or created. -/
def getOrCreate (table : Nat → Option PredData) (ch : Nat) (fresh : PredData) :
    (Nat → Option PredData) × PredData :=
  match table ch with
  | none => (fun k2 => if k2 = ch then some fresh else table k2, fresh)
  | some nd0 => (table, nd0)

/-- `op_type` from `griot_model.h`. -/
inductive OpType
  | GRIOT_READ
  | GRIOT_WRITE
  | GRIOT_OPEN
  | GRIOT_CLOSE
deriving DecidableEq

/-- `griot_results`: the counters shared by both variants (time-valued
fields hold the accumulated measured durations; the per-open
`highest_recorded_memory_footprint` is omitted — it only feeds the
report and no claim mentions it). -/
structure Results where
  io_count : Nat
  io_time : Nat
  read_volume : Nat
  write_volume : Nat
  total_volume : Nat
  mru_correct_prediction_count : Nat
  mru_correct_prediction_volume : Nat
  mru_correct_prediction_io_time : Nat
  mfu_correct_prediction_count : Nat
  mfu_correct_prediction_volume : Nat
  mfu_correct_prediction_io_time : Nat
  call_stack_instrumentation_count : Nat
  call_stack_instrumentation_time : Nat
  model_prediction_time : Nat
deriving DecidableEq

/-- The all-zero counters (`memset(&griot_results, 0, ...)`). -/
def Results.zero : Results :=
  ⟨0, 0, 0, 0, 0, 0, 0, 0, 0, 0, 0, 0, 0, 0⟩

/-- One intercepted event, carrying the externally produced inputs of
`on_io`: the call-stack hash returned by `get_hash_for_current_backtrace`,
the I/O metadata, and the two measured wall-clock intervals. -/
structure IoEvent where
  call_stack : Nat
  fd : Nat
  length : Nat
  duration_ns : Nat
  op : OpType
  backtrace_dt : Nat
  model_dt : Nat
deriving DecidableEq

/-- The instrumentation and traffic-counter block shared verbatim by both
variants (per-process `griot_model.c` lines 133-142, per-open lines 243-252). -/
def statsUpdate (r : Results) (e : IoEvent) : Results :=
  { r with
    call_stack_instrumentation_count := r.call_stack_instrumentation_count + 1,
    call_stack_instrumentation_time := r.call_stack_instrumentation_time + e.backtrace_dt,
    io_count := r.io_count + 1,
    io_time := r.io_time + e.duration_ns,
    total_volume := r.total_volume + e.length,
    read_volume :=
      if e.op = OpType.GRIOT_READ then r.read_volume + e.length else r.read_volume,
    write_volume :=
      if e.op = OpType.GRIOT_READ then r.write_volume
      else if e.op = OpType.GRIOT_WRITE then r.write_volume + e.length
      else r.write_volume }

/-- The three MRU hit counters incremented together on a correct MRU
prediction (per-process `griot_model.c` lines 166-168). -/
def mruHitUpdate (r : Results) (e : IoEvent) : Results :=
  { r with
    mru_correct_prediction_count := r.mru_correct_prediction_count + 1,
    mru_correct_prediction_volume := r.mru_correct_prediction_volume + e.length,
    mru_correct_prediction_io_time := r.mru_correct_prediction_io_time + e.duration_ns }

/-- The three MFU hit counters incremented together on a correct MFU
prediction (per-process `griot_model.c` lines 171-173). -/
def mfuHitUpdate (r : Results) (e : IoEvent) : Results :=
  { r with
    mfu_correct_prediction_count := r.mfu_correct_prediction_count + 1,
    mfu_correct_prediction_volume := r.mfu_correct_prediction_volume + e.length,
    mfu_correct_prediction_io_time := r.mfu_correct_prediction_io_time + e.duration_ns }

end Griot

namespace Griot.PerProcess

/-- The whole mutable state of `per-process/griot_model.c`:
`griot_results`, `griot_model` and `griot_context`. -/
structure ModelState where
  results : Results
  prediction_table : Nat → Option PredData
  previous_call_stack : Nat
  mru_prediction : Nat
  mfu_prediction : Nat
  previous_pred_data : Option Nat
  ctx : GriotContext

/-- `griot_init` of the per-process variant: zeroed counters, empty
table, zeroed ring of capacity `context_size` (the other `griot_model`
fields are static-zero initialised). -/
def griot_init (context_size : Nat) : ModelState :=
  { results := Results.zero,
    prediction_table := fun _ => none,
    previous_call_stack := 0,
    mru_prediction := 0,
    mfu_prediction := 0,
    previous_pred_data := none,
    ctx := ctxInit context_size }

/-- `on_io` of `per-process/griot_model.c` lines 122-257.  Step numbers
follow the comments in the source. -/
def on_io (s : ModelState) (e : IoEvent) : ModelState :=
  -- (0) instrumentation counters and (1) traffic stats
  let r0 := statsUpdate s.results e
  -- (2) write the call stack into the ring, compute the context hash
  let ctx2 := ctxPush s.ctx e.call_stack
  let ch := contextHash ctx2
  -- (3) validate the previous predictions (lines 165 and 170)
  let r1 :=
    if s.mru_prediction = ch ∨ (s.mru_prediction = 0 ∧ s.previous_call_stack = e.call_stack)
    then mruHitUpdate r0 e else r0
  let r2 :=
    if s.mfu_prediction = ch ∨ (s.mfu_prediction = 0 ∧ s.previous_call_stack = e.call_stack)
    then mfuHitUpdate r1 e else r1
  -- (4) back-edge update through the previous-node borrow (lines 177-207)
  let table1 := borrowUpdate s.prediction_table s.previous_pred_data ch
  -- (5) get-or-create the node of the new context (lines 210-221);
  -- the fresh node is all-zero: the self-loop pre-seed is commented out here
  let tn := getOrCreate table1 ch ⟨0, [], []⟩
  -- MRU and MFU predictions (lines 224-240), fallback bookkeeping (243),
  -- (6) new previous node and (7) timers
  { results := { r2 with model_prediction_time := r2.model_prediction_time + e.model_dt },
    prediction_table := tn.1,
    previous_call_stack := e.call_stack,
    mru_prediction := tn.2.mru_context_hash,
    mfu_prediction := predictMfu tn.2,
    previous_pred_data := some ch,
    ctx := ctx2 }

/-- `griot_results_reset` (per-process `griot_model.c` lines 262-265). -/
def griot_results_reset (s : ModelState) : ModelState :=
  { s with results := Results.zero }

/-- States reachable through the tracer entry points: `griot_init`, any
sequence of `on_io` events, and the post-fork counter reset. -/
inductive Reachable : ModelState → Prop
  | init (C : Nat) : Reachable (griot_init C)
  | step {s : ModelState} (e : IoEvent) : Reachable s → Reachable (on_io s e)
  | reset {s : ModelState} : Reachable s → Reachable (griot_results_reset s)

end Griot.PerProcess

namespace Griot.PerOpen

/-- `griot_per_fd_data` of `per-open/griot_model.c` lines 80-97: the
private graph, context ring, last predictions, fallback call-stack hash
and previous-node borrow of one open file descriptor. -/
structure PerFdData where
  prediction_table : Nat → Option PredData
  ctx : GriotContext
  mru_prediction : Nat
  mfu_prediction : Nat
  previous_call_stack : Nat
  previous_pred_data : Option Nat

/-- The per-fd state built by `on_open`: everything zeroed, a zeroed ring
of the process-wide capacity, and an empty prediction table
(`per-open/griot_model.c` lines 170-190). -/
def freshFdData (C : Nat) : PerFdData :=
  { prediction_table := fun _ => none,
    ctx := ctxInit C,
    mru_prediction := 0,
    mfu_prediction := 0,
    previous_call_stack := 0,
    previous_pred_data := none }

/-- The whole mutable state of `per-open/griot_model.c`:
`griot_results`, the fd map, and the saved `context_size`. -/
structure ModelState where
  results : Results
  per_fd_data : Nat → Option PerFdData
  context_size : Nat

/-- `griot_init` of the per-open variant (lines 137-150). -/
def griot_init (context_size : Nat) : ModelState :=
  { results := Results.zero,
    per_fd_data := fun _ => none,
    context_size := context_size }

/-- `on_open` (lines 170-190): insert a fresh per-fd state for `fd`
(`hashmap_set` replaces any previous entry).  The unused timestamp and
thread id parameters are dropped. -/
def on_open (s : ModelState) (fd : Nat) : ModelState :=
  { s with per_fd_data := fun k =>
      if k = fd then some (freshFdData s.context_size) else s.per_fd_data k }

/-- `on_close` (lines 195-225): remove the per-fd entry of `fd`; an
unknown fd returns immediately (only an optional debug diagnostic is
emitted before the `return`). -/
def on_close (s : ModelState) (fd : Nat) : ModelState :=
  match s.per_fd_data fd with
  | none => s
  | some _ =>
      { s with per_fd_data := fun k => if k = fd then none else s.per_fd_data k }

/-- Steps (3)-(7) of the per-open `on_io` (lines 270-368), acting on one
file descriptor's private state: context advance, prediction validation,
back-edge update, node get-or-create (with the `mru_context_hash`
self-loop pre-seed of line 338) and the new predictions.  Note that the
MRU validation of line 285 tests `mfu_prediction == 0` in its cold
fallback, exactly as the source does. -/
def fd_step (r : Results) (d : PerFdData) (e : IoEvent) : Results × PerFdData :=
  -- (3) write the call stack into the fd's ring, compute the context hash
  let ctx2 := ctxPush d.ctx e.call_stack
  let ch := contextHash ctx2
  -- (4) validate the previous predictions (lines 285 and 290)
  let r1 :=
    if d.mru_prediction = ch ∨ (d.mfu_prediction = 0 ∧ d.previous_call_stack = e.call_stack)
    then mruHitUpdate r e else r
  let r2 :=
    if d.mfu_prediction = ch ∨ (d.mfu_prediction = 0 ∧ d.previous_call_stack = e.call_stack)
    then mfuHitUpdate r1 e else r1
  -- (5) back-edge update through the previous-node borrow (lines 297-327)
  let table1 := borrowUpdate d.prediction_table d.previous_pred_data ch
  -- (6) get-or-create the node, pre-seeding its MRU successor with the
  -- current context hash when freshly created (lines 330-343)
  let tn := getOrCreate table1 ch ⟨ch, [], []⟩
  -- predictions (lines 346-362), fallback bookkeeping (365), (7) previous node
  (r2,
   { prediction_table := tn.1,
     ctx := ctx2,
     mru_prediction := tn.2.mru_context_hash,
     mfu_prediction := predictMfu tn.2,
     previous_call_stack := e.call_stack,
     previous_pred_data := some ch })

/-- The per-fd lookup of `on_io` (lines 254-268): an unknown fd is
implicitly opened and the freshly inserted per-fd data (which is exactly
`freshFdData context_size`) is used. -/
def resolveFd (s : ModelState) (fd : Nat) : ModelState × PerFdData :=
  match s.per_fd_data fd with
  | none => (on_open s fd, freshFdData s.context_size)
  | some d0 => (s, d0)

/-- `on_io` of `per-open/griot_model.c` lines 230-377: synthetic open
first, instrumentation and traffic stats, per-fd resolution with
implicit open on an unknown fd, the per-fd pipeline, timers, and the
synthetic close last. -/
def on_io (s : ModelState) (e : IoEvent) : ModelState :=
  -- (0) synthetic open (line 233)
  let s1 := if e.op = OpType.GRIOT_OPEN then on_open s e.fd else s
  -- (0) instrumentation and (1) traffic stats (lines 237-252)
  let r0 := statsUpdate s1.results e
  -- (2) resolve the per-fd data, implicitly opening an unknown fd (lines 254-268)
  let sd := resolveFd s1 e.fd
  -- (3)-(7) the per-fd pipeline
  let p := fd_step r0 sd.2 e
  -- (8) timers, and writing the updated per-fd data back
  let s3 : ModelState :=
    { sd.1 with
      results := { p.1 with model_prediction_time := p.1.model_prediction_time + e.model_dt },
      per_fd_data := fun k => if k = e.fd then some p.2 else sd.1.per_fd_data k }
  -- (9) synthetic close (line 376)
  if e.op = OpType.GRIOT_CLOSE then on_close s3 e.fd else s3

/-- `griot_results_reset` (per-open `griot_model.c` lines 382-385). -/
def griot_results_reset (s : ModelState) : ModelState :=
  { s with results := Results.zero }

/-- States reachable through the tracer entry points: `griot_init`, any
sequence of `on_io` events, and the post-fork counter reset. -/
inductive Reachable : ModelState → Prop
  | init (C : Nat) : Reachable (griot_init C)
  | step {s : ModelState} (e : IoEvent) : Reachable s → Reachable (on_io s e)
  | reset {s : ModelState} : Reachable s → Reachable (griot_results_reset s)

end Griot.PerOpen

namespace Griot.Tracer

/-- Default `griot_context_size` (`griot_tracer.c` line 50). -/
def default_context_size : Nat := 16

/-- Default `griot_call_stack_depth` (`griot_tracer.c` line 51). -/
def default_call_stack_depth : Nat := 16

/-- The context size `griotInitializeTracer` passes to `griot_init`
(`griot_tracer.c` lines 127-137).  The argument is the `strtol` result
of `GRIOT_CONTEXT_SIZE`: `none` when the variable is unset, and `some 0`
for an unparseable string (`strtol` returns 0).  Non-positive values are
rejected in favour of the default; values above 1024 are clamped. -/
def context_size_of_env : Option Int → Nat
  | none => default_context_size
  | some v =>
      if v ≤ 0 then default_context_size
      else if 1024 < v then 1024 else v.toNat

/-- The call-stack depth `griotInitializeTracer` passes to `griot_init`
(`griot_tracer.c` lines 140-150).  Same conventions as
`context_size_of_env`; a positive value is used after the C cast to
`unsigned int` (reduction modulo `2 ^ 32`) — there is no 1024 clamp on
this path in the source. -/
def call_stack_depth_of_env : Option Int → Nat
  | none => default_call_stack_depth
  | some v =>
      if v ≤ 0 then default_call_stack_depth
      else v.toNat % 2 ^ 32

end Griot.Tracer

namespace Griot

/-- A per-fd state exhibiting the asymmetry of the per-open MRU
validation: the last MRU prediction is `1`, the last MFU prediction is
`0`, and the last call-stack hash is `42`. -/
def mruFallbackFdData : PerOpen.PerFdData :=
  { prediction_table := fun _ => none,
    ctx := ctxInit 1,
    mru_prediction := 1,
    mfu_prediction := 0,
    previous_call_stack := 42,
    previous_pred_data := none }

/-- A per-open engine state holding `mruFallbackFdData` at fd 3. -/
def mruFallbackState : PerOpen.ModelState :=
  { results := Results.zero,
    per_fd_data := fun k => if k = 3 then some mruFallbackFdData else none,
    context_size := 1 }

/-- A read on fd 3 from the same call-stack site (hash 42) as the
previous event of `mruFallbackFdData`. -/
def mruFallbackEvent : IoEvent :=
  ⟨42, 3, 10, 7, OpType.GRIOT_READ, 0, 0⟩

end Griot

namespace Griot

/-! ### Helper lemmas -/

@[simp]
theorem statsUpdate_csi (r : Results) (e : IoEvent) :
    (statsUpdate r e).call_stack_instrumentation_count =
      r.call_stack_instrumentation_count + 1 := rfl

@[simp]
theorem statsUpdate_io (r : Results) (e : IoEvent) :
    (statsUpdate r e).io_count = r.io_count + 1 := rfl

@[simp]
theorem mruHitUpdate_csi (r : Results) (e : IoEvent) :
    (mruHitUpdate r e).call_stack_instrumentation_count =
      r.call_stack_instrumentation_count := rfl

@[simp]
theorem mruHitUpdate_io (r : Results) (e : IoEvent) :
    (mruHitUpdate r e).io_count = r.io_count := rfl

@[simp]
theorem mfuHitUpdate_csi (r : Results) (e : IoEvent) :
    (mfuHitUpdate r e).call_stack_instrumentation_count =
      r.call_stack_instrumentation_count := rfl

@[simp]
theorem mfuHitUpdate_io (r : Results) (e : IoEvent) :
    (mfuHitUpdate r e).io_count = r.io_count := rfl

theorem pp_on_io_csi (s : PerProcess.ModelState) (e : IoEvent) :
    (PerProcess.on_io s e).results.call_stack_instrumentation_count =
      s.results.call_stack_instrumentation_count + 1 := by
  simp only [PerProcess.on_io]
  split <;> split <;> simp

theorem pp_on_io_io (s : PerProcess.ModelState) (e : IoEvent) :
    (PerProcess.on_io s e).results.io_count = s.results.io_count + 1 := by
  simp only [PerProcess.on_io]
  split <;> split <;> simp

@[simp]
theorem po_fd_step_csi (r : Results) (d : PerOpen.PerFdData) (e : IoEvent) :
    (PerOpen.fd_step r d e).1.call_stack_instrumentation_count =
      r.call_stack_instrumentation_count := by
  simp only [PerOpen.fd_step]
  split <;> split <;> simp

@[simp]
theorem po_fd_step_io (r : Results) (d : PerOpen.PerFdData) (e : IoEvent) :
    (PerOpen.fd_step r d e).1.io_count = r.io_count := by
  simp only [PerOpen.fd_step]
  split <;> split <;> simp

@[simp]
theorem po_on_open_results (s : PerOpen.ModelState) (fd : Nat) :
    (PerOpen.on_open s fd).results = s.results := rfl

@[simp]
theorem po_on_close_results (s : PerOpen.ModelState) (fd : Nat) :
    (PerOpen.on_close s fd).results = s.results := by
  simp only [PerOpen.on_close]
  split <;> rfl

@[simp]
theorem po_resolveFd_results (s : PerOpen.ModelState) (fd : Nat) :
    (PerOpen.resolveFd s fd).1.results = s.results := by
  simp only [PerOpen.resolveFd]
  split <;> rfl

theorem po_on_io_csi (s : PerOpen.ModelState) (e : IoEvent) :
    (PerOpen.on_io s e).results.call_stack_instrumentation_count =
      s.results.call_stack_instrumentation_count + 1 := by
  simp only [PerOpen.on_io]
  split <;> simp <;> split <;> simp

theorem po_on_io_io (s : PerOpen.ModelState) (e : IoEvent) :
    (PerOpen.on_io s e).results.io_count = s.results.io_count + 1 := by
  simp only [PerOpen.on_io]
  split <;> simp <;> split <;> simp

end Griot


namespace Griot

/-! ### Claim theorems -/

/-- Claim C10: in every reachable state of both variants,
`call_stack_instrumentation_count` equals `io_count`; every `on_io` call
increments each of the two counters exactly once regardless of the
operation kind, and `griot_results_reset` zeroes both together. -/
theorem c10_instrumentation_count_eq_io_count :
    (∀ (s : PerProcess.ModelState) (e : IoEvent),
       (PerProcess.on_io s e).results.call_stack_instrumentation_count =
         s.results.call_stack_instrumentation_count + 1 ∧
       (PerProcess.on_io s e).results.io_count = s.results.io_count + 1) ∧
    (∀ (s : PerOpen.ModelState) (e : IoEvent),
       (PerOpen.on_io s e).results.call_stack_instrumentation_count =
         s.results.call_stack_instrumentation_count + 1 ∧
       (PerOpen.on_io s e).results.io_count = s.results.io_count + 1) ∧
    (∀ s : PerProcess.ModelState,
       (PerProcess.griot_results_reset s).results.call_stack_instrumentation_count = 0 ∧
       (PerProcess.griot_results_reset s).results.io_count = 0) ∧
    (∀ s : PerOpen.ModelState,
       (PerOpen.griot_results_reset s).results.call_stack_instrumentation_count = 0 ∧
       (PerOpen.griot_results_reset s).results.io_count = 0) ∧
    (∀ s : PerProcess.ModelState, PerProcess.Reachable s →
       s.results.call_stack_instrumentation_count = s.results.io_count) ∧
    (∀ s : PerOpen.ModelState, PerOpen.Reachable s →
       s.results.call_stack_instrumentation_count = s.results.io_count) := by
  refine ⟨fun s e => ⟨pp_on_io_csi s e, pp_on_io_io s e⟩,
          fun s e => ⟨po_on_io_csi s e, po_on_io_io s e⟩,
          fun s => ⟨rfl, rfl⟩, fun s => ⟨rfl, rfl⟩, ?_, ?_⟩
  · intro s hs
    induction hs with
    | init C => rfl
    | step e _ ih => rw [pp_on_io_csi, pp_on_io_io, ih]
    | reset _ _ => rfl
  · intro s hs
    induction hs with
    | init C => rfl
    | step e _ ih => rw [po_on_io_csi, po_on_io_io, ih]
    | reset _ _ => rfl

/-- Witness for C10 at a concrete reachable state: after one read event
on a fresh per-open engine, both counters are equal. -/
theorem c10_witness :
    (PerOpen.on_io (PerOpen.griot_init 2) ⟨5, 3, 8, 9, OpType.GRIOT_READ, 1, 1⟩).results.call_stack_instrumentation_count =
      (PerOpen.on_io (PerOpen.griot_init 2) ⟨5, 3, 8, 9, OpType.GRIOT_READ, 1, 1⟩).results.io_count :=
  c10_instrumentation_count_eq_io_count.2.2.2.2.2 _
    (PerOpen.Reachable.step _ (PerOpen.Reachable.init 2))

/-- Claim C9: `MurmurHash64A` uses `m = 0xc6a4a7935bd1e995` and `r = 47`,
and hashing a zero-length input returns the seed passed through the
finaliser only: `h = seed; h ^= h >> 47; h *= m; h ^= h >> 47` (modulo
`2 ^ 64`). -/
theorem c9_murmur_empty_input (seed : Nat) (_hseed : seed < 2 ^ 64) :
    MurmurHash64A [] seed =
      ((seed ^^^ (seed >>> 47)) * 0xc6a4a7935bd1e995 % 2 ^ 64) ^^^
        (((seed ^^^ (seed >>> 47)) * 0xc6a4a7935bd1e995 % 2 ^ 64) >>> 47) := by
  simp [MurmurHash64A, chunkWords, chunkTail, u64mask, murmur_m, murmur_r]

/-- Witness for C9 at the compiled-in seed `GRIOT_SEED = 12345678`. -/
theorem c9_witness : MurmurHash64A [] 12345678 = 18005763873086591908 :=
  (c9_murmur_empty_input 12345678 (by decide)).trans (by decide)

/-- Claim C8 counterexample: an environment call-stack depth of 2000 is
NOT clamped to 1024 — `griotInitializeTracer` only clamps the context
size; the depth is used as-is. -/
theorem c8_counterexample_depth_not_clamped :
    Tracer.call_stack_depth_of_env (some 2000) = 2000 ∧ (2000 : Nat) ≠ 1024 := by
  constructor <;> decide

/-- Claim C8 as amended: environment context-size values above 1024 are
clamped to 1024 and positive values up to 1024 are taken as-is; the
call-stack depth takes any positive value reduced modulo `2 ^ 32` (the C
cast to `unsigned int`), with no 1024 clamp; zero, negative or
unparseable values (where `strtol` yields 0) are rejected for both
parameters, leaving the defaults of 16. -/
theorem c8_amended_env_handling :
    Tracer.context_size_of_env none = 16 ∧
    Tracer.call_stack_depth_of_env none = 16 ∧
    (∀ v : Int, v ≤ 0 →
       Tracer.context_size_of_env (some v) = 16 ∧
       Tracer.call_stack_depth_of_env (some v) = 16) ∧
    (∀ v : Int, 0 < v → v ≤ 1024 →
       Tracer.context_size_of_env (some v) = v.toNat) ∧
    (∀ v : Int, 1024 < v → Tracer.context_size_of_env (some v) = 1024) ∧
    (∀ v : Int, 0 < v →
       Tracer.call_stack_depth_of_env (some v) = v.toNat % 2 ^ 32) := by
  refine ⟨rfl, rfl, ?_, ?_, ?_, ?_⟩
  · intro v hv
    constructor
    · simp [Tracer.context_size_of_env, Tracer.default_context_size, hv]
    · simp [Tracer.call_stack_depth_of_env, Tracer.default_call_stack_depth, hv]
  · intro v hv hv2
    simp only [Tracer.context_size_of_env]
    rw [if_neg (by omega), if_neg (by omega)]
  · intro v hv
    simp only [Tracer.context_size_of_env]
    rw [if_neg (by omega), if_pos hv]
  · intro v hv
    simp only [Tracer.call_stack_depth_of_env]
    rw [if_neg (by omega)]

/-- Witness for C8 at concrete environment values: 5000 clamps the
context size to 1024, -3 leaves the depth at its default 16. -/
theorem c8_witness :
    Tracer.context_size_of_env (some 5000) = 1024 ∧
    Tracer.call_stack_depth_of_env (some (-3)) = 16 :=
  ⟨c8_amended_env_handling.2.2.2.2.1 5000 (by decide),
   (c8_amended_env_handling.2.2.1 (-3) (by decide)).2⟩

end Griot

namespace Griot

/-! ### Ring-buffer lemmas for C4 -/

theorem ctxPush_buf_length (s : GriotContext) (h : Nat) :
    (ctxPush s h).buf.length = s.buf.length := by
  simp [ctxPush]

theorem ctxPush_idx_lt (s : GriotContext) (h : Nat) (hlt : s.idx < s.buf.length) :
    (ctxPush s h).idx < (ctxPush s h).buf.length := by
  simp only [ctxPush, List.length_set]
  split <;> omega

theorem orderedContext_length (s : GriotContext) (hle : s.idx ≤ s.buf.length) :
    (orderedContext s).length = s.buf.length := by
  simp [orderedContext]
  omega

theorem drop_one_append_left {α : Type} (v w : List α) (hv : v ≠ []) :
    (v ++ w).drop 1 = v.drop 1 ++ w := by
  cases v with
  | nil => exact absurd rfl hv
  | cons a t => simp

theorem orderedContext_push (s : GriotContext) (h : Nat) (hlt : s.idx < s.buf.length) :
    orderedContext (ctxPush s h) = (orderedContext s).drop 1 ++ [h] := by
  have htake : (s.buf.take s.idx).length = s.idx := by
    simp [List.length_take]
    omega
  have hset : s.buf.set s.idx h = s.buf.take s.idx ++ h :: s.buf.drop (s.idx + 1) :=
    List.set_eq_take_cons_drop h hlt
  have hchron :
      orderedContext s =
        s.buf[s.idx] :: (s.buf.drop (s.idx + 1) ++ s.buf.take s.idx) := by
    rw [orderedContext, List.drop_eq_getElem_cons hlt, List.cons_append]
  by_cases hc : s.buf.length ≤ s.idx + 1
  · -- the write lands in the last slot and the index wraps to 0
    simp only [ctxPush, List.length_set, if_pos hc]
    have hdropnil : s.buf.drop (s.idx + 1) = [] := by
      apply List.drop_eq_nil_of_le
      omega
    rw [orderedContext]
    simp only [List.drop_zero, List.take_zero, List.append_nil]
    rw [hset, hdropnil, hchron]
    simp [hdropnil]
  · -- the index advances by one
    simp only [ctxPush, List.length_set, if_neg hc]
    rw [orderedContext]
    simp only [hset]
    rw [show s.idx + 1 = (s.buf.take s.idx).length + 1 by rw [htake]]
    rw [List.drop_append, List.take_append]
    rw [hchron]
    simp
    rw [Nat.min_eq_left hlt.le]

theorem orderedContext_foldl (hs : List Nat) :
    ∀ s : GriotContext, s.idx < s.buf.length →
      orderedContext (hs.foldl ctxPush s) = (orderedContext s ++ hs).drop hs.length := by
  induction hs with
  | nil => intro s _; simp
  | cons h t ih =>
      intro s hlt
      have hvlen : (orderedContext s).length = s.buf.length :=
        orderedContext_length s hlt.le
      have hvne : orderedContext s ≠ [] := by
        intro h0
        rw [h0] at hvlen
        simp at hvlen
        omega
      rw [List.foldl_cons, ih _ (ctxPush_idx_lt s h hlt), orderedContext_push s h hlt,
        List.length_cons]
      rw [show t.length + 1 = 1 + t.length by omega, ← List.drop_drop,
        drop_one_append_left _ _ hvne]
      simp

theorem orderedContext_ctxRun (C : Nat) (hC : 0 < C) (hs : List Nat) (hlen : C ≤ hs.length) :
    orderedContext (ctxRun C hs) = hs.drop (hs.length - C) := by
  rw [ctxRun, orderedContext_foldl hs (ctxInit C) (by simp [ctxInit]; omega)]
  have hinit : orderedContext (ctxInit C) = List.replicate C 0 := by
    simp [orderedContext, ctxInit]
  rw [hinit]
  conv_lhs => rw [show hs.length = (List.replicate C (0 : Nat)).length + (hs.length - C) by
    simp; omega]
  rw [List.drop_append]

/-- Claim C4: the context hash is a function only of the `C` most recent
call-stack hashes in chronological order: two event histories of length
at least `C` with identical most-recent-`C` call-stack hashes yield
identical context hashes, independent of the position of the ring-buffer
write index. -/
theorem c4_context_hash_of_last_C (C : Nat) (hC : 0 < C) (hs1 hs2 : List Nat)
    (h1 : C ≤ hs1.length) (h2 : C ≤ hs2.length)
    (hsuffix : hs1.drop (hs1.length - C) = hs2.drop (hs2.length - C)) :
    contextHash (ctxRun C hs1) = contextHash (ctxRun C hs2) := by
  rw [contextHash, contextHash, orderedContext_ctxRun C hC hs1 h1,
    orderedContext_ctxRun C hC hs2 h2, hsuffix]

/-- Witness for C4: with `C = 2`, the histories `[7, 1, 2]` and
`[9, 9, 1, 2]` (same last two hashes, different ring positions) produce
the same context hash. -/
theorem c4_witness :
    contextHash (ctxRun 2 [7, 1, 2]) = contextHash (ctxRun 2 [9, 9, 1, 2]) :=
  c4_context_hash_of_last_C 2 (by decide) [7, 1, 2] [9, 9, 1, 2]
    (by decide) (by decide) (by decide)

end Griot

namespace Griot

/-! ### Successor-list lemmas for C3 -/

theorem mfuUpdate_not_mem (c : Nat) :
    ∀ hs ws : List Nat, hs.length = ws.length → c ∉ hs →
      mfuUpdate hs ws c = (hs ++ [c], ws ++ [1]) := by
  intro hs
  induction hs with
  | nil =>
      intro ws hlen _
      cases ws with
      | nil => rfl
      | cons w ws' => simp at hlen
  | cons h t ih =>
      intro ws hlen hmem
      cases ws with
      | nil => simp at hlen
      | cons w ws' =>
          simp only [List.length_cons, Nat.add_right_cancel_iff] at hlen
          have hne : ¬ h = c := by
            intro he
            exact hmem (by simp [he])
          have hrec := ih ws' hlen (fun hm => hmem (List.mem_cons_of_mem _ hm))
          simp [mfuUpdate, hne, hrec]

theorem mfuUpdate_mem (c : Nat) :
    ∀ hs ws : List Nat, hs.length = ws.length → c ∈ hs →
      (mfuUpdate hs ws c).1 = hs ∧
      ∃ i, ∃ hi : i < hs.length, ∃ hi2 : i < ws.length,
        hs.get ⟨i, hi⟩ = c ∧
        (mfuUpdate hs ws c).2 = ws.set i (ws.get ⟨i, hi2⟩ + 1) := by
  intro hs
  induction hs with
  | nil => intro ws _ hmem; simp at hmem
  | cons h t ih =>
      intro ws hlen hmem
      cases ws with
      | nil => simp at hlen
      | cons w ws' =>
          simp only [List.length_cons, Nat.add_right_cancel_iff] at hlen
          by_cases he : h = c
          · refine ⟨by simp [mfuUpdate, he], 0, by simp, by simp, by simpa using he, ?_⟩
            simp [mfuUpdate, he]
          · have hmem' : c ∈ t := by
              rcases List.mem_cons.mp hmem with h1 | h1
              · exact absurd h1.symm he
              · exact h1
            obtain ⟨hfst, i, hi, hi2, hget, hsnd⟩ := ih ws' hlen hmem'
            refine ⟨by simp [mfuUpdate, he, hfst], i + 1, Nat.succ_lt_succ hi,
              Nat.succ_lt_succ hi2, ?_, ?_⟩
            · simpa using hget
            · simp [mfuUpdate, he, hsnd]

theorem sum_set_add_one (ws : List Nat) (i : Nat) (hi : i < ws.length) :
    (ws.set i (ws.get ⟨i, hi⟩ + 1)).sum = ws.sum + 1 := by
  have hsplit : ws.sum = (ws.take i).sum + (ws.get ⟨i, hi⟩ + (ws.drop (i + 1)).sum) := by
    conv_lhs => rw [← List.take_append_drop i ws, List.drop_eq_getElem_cons hi]
    rw [List.sum_append, List.sum_cons]
    simp [List.get_eq_getElem]
  rw [List.sum_set, if_pos hi, hsplit]
  omega

theorem recordTransition_inv (nd : PredData) (c : Nat)
    (h1 : nd.mfu_context_hash_list.Nodup)
    (h2 : nd.mfu_context_hash_list.length = nd.mfu_weight_list.length) :
    (recordTransition nd c).mfu_context_hash_list.Nodup ∧
    (recordTransition nd c).mfu_context_hash_list.length =
      (recordTransition nd c).mfu_weight_list.length ∧
    (recordTransition nd c).mfu_weight_list.sum = nd.mfu_weight_list.sum + 1 := by
  by_cases hc : c ∈ nd.mfu_context_hash_list
  · obtain ⟨hfst, i, hi, hi2, _, hsnd⟩ :=
      mfuUpdate_mem c nd.mfu_context_hash_list nd.mfu_weight_list h2 hc
    refine ⟨?_, ?_, ?_⟩
    · simpa [recordTransition, hfst] using h1
    · simp [recordTransition, hfst, hsnd, h2]
    · simp only [recordTransition]
      rw [hsnd]
      exact sum_set_add_one _ i hi2
  · have hupd := mfuUpdate_not_mem c nd.mfu_context_hash_list nd.mfu_weight_list h2 hc
    refine ⟨?_, ?_, ?_⟩
    · simp [recordTransition, hupd, List.nodup_append, h1, hc]
    · simp [recordTransition, hupd, h2]
    · simp [recordTransition, hupd]

theorem applyTransitions_inv (cs : List Nat) :
    ∀ nd : PredData,
      nd.mfu_context_hash_list.Nodup →
      nd.mfu_context_hash_list.length = nd.mfu_weight_list.length →
      (applyTransitions nd cs).mfu_context_hash_list.Nodup ∧
      (applyTransitions nd cs).mfu_context_hash_list.length =
        (applyTransitions nd cs).mfu_weight_list.length ∧
      (applyTransitions nd cs).mfu_weight_list.sum =
        nd.mfu_weight_list.sum + cs.length := by
  induction cs with
  | nil =>
      intro nd h1 h2
      exact ⟨h1, h2, by simp [applyTransitions]⟩
  | cons c t ih =>
      intro nd h1 h2
      obtain ⟨s1, s2, s3⟩ := recordTransition_inv nd c h1 h2
      obtain ⟨r1, r2, r3⟩ := ih (recordTransition nd c) s1 s2
      refine ⟨r1, r2, ?_⟩
      have : applyTransitions nd (c :: t) = applyTransitions (recordTransition nd c) t := rfl
      rw [this, r3, s3]
      simp
      omega

/-- Claim C3: starting from a fresh node (empty successor lists, any MRU
pre-seed), after any sequence of recorded transitions each distinct
successor context hash appears exactly once in the parallel arrays, the
arrays have equal length, and the sum of the weights equals the number
of transitions recorded; moreover each single recorded transition either
appends a new successor with weight 1 (hash not present) or increments
the weight of an existing occurrence of the hash by exactly 1. -/
theorem c3_successor_invariant (m0 : Nat) (cs : List Nat) :
    ((applyTransitions ⟨m0, [], []⟩ cs).mfu_context_hash_list.Nodup ∧
     (applyTransitions ⟨m0, [], []⟩ cs).mfu_context_hash_list.length =
       (applyTransitions ⟨m0, [], []⟩ cs).mfu_weight_list.length ∧
     (applyTransitions ⟨m0, [], []⟩ cs).mfu_weight_list.sum = cs.length) ∧
    (∀ (hs ws : List Nat) (c : Nat), hs.length = ws.length →
      (c ∉ hs → mfuUpdate hs ws c = (hs ++ [c], ws ++ [1])) ∧
      (c ∈ hs → (mfuUpdate hs ws c).1 = hs ∧
        ∃ i, ∃ hi : i < hs.length, ∃ hi2 : i < ws.length,
          hs.get ⟨i, hi⟩ = c ∧
          (mfuUpdate hs ws c).2 = ws.set i (ws.get ⟨i, hi2⟩ + 1))) := by
  constructor
  · have h := applyTransitions_inv cs ⟨m0, [], []⟩ (by simp) (by simp)
    simpa using h
  · intro hs ws c hlen
    exact ⟨mfuUpdate_not_mem c hs ws hlen, mfuUpdate_mem c hs ws hlen⟩

/-- Witness for C3: three transitions `7, 8, 7` from a fresh node give
total weight 3 over two distinct successors. -/
theorem c3_witness :
    (applyTransitions ⟨0, [], []⟩ [7, 8, 7]).mfu_weight_list.sum = 3 :=
  (c3_successor_invariant 0 [7, 8, 7]).1.2.2

end Griot

namespace Griot

/-! ### MFU scan lemmas for C2 -/

theorem mfuScan_all_le :
    ∀ (hs ws : List Nat) (best minw : Nat), hs.length = ws.length →
      (∀ w ∈ ws, w ≤ minw) → mfuScan hs ws best minw = best := by
  intro hs
  induction hs with
  | nil =>
      intro ws best minw hlen _
      cases ws with
      | nil => rfl
      | cons _ _ => simp at hlen
  | cons h t ih =>
      intro ws best minw hlen hall
      cases ws with
      | nil => simp at hlen
      | cons w ws' =>
          simp only [List.length_cons, Nat.add_right_cancel_iff] at hlen
          have hw : w ≤ minw := hall w (by simp)
          simp only [mfuScan]
          rw [if_neg (by omega)]
          exact ih ws' best minw hlen (fun x hx => hall x (by simp [hx]))

theorem mfuScan_spec :
    ∀ (hs ws : List Nat) (best minw : Nat), hs.length = ws.length →
      (∃ w ∈ ws, minw < w) →
      ∃ i, ∃ hi : i < hs.length, ∃ hi2 : i < ws.length,
        mfuScan hs ws best minw = hs.get ⟨i, hi⟩ ∧
        minw < ws.get ⟨i, hi2⟩ ∧
        (∀ j (hj : j < ws.length), ws.get ⟨j, hj⟩ ≤ ws.get ⟨i, hi2⟩) ∧
        (∀ j (hj : j < i), ws.get ⟨j, Nat.lt_trans hj hi2⟩ < ws.get ⟨i, hi2⟩) := by
  intro hs
  induction hs with
  | nil =>
      intro ws best minw hlen hex
      cases ws with
      | nil => simp at hex
      | cons _ _ => simp at hlen
  | cons h t ih =>
      intro ws best minw hlen hex
      cases ws with
      | nil => simp at hlen
      | cons w ws' =>
          simp only [List.length_cons, Nat.add_right_cancel_iff] at hlen
          by_cases hw : minw < w
          · by_cases hall : ∀ x ∈ ws', x ≤ w
            · refine ⟨0, by simp, by simp, ?_, by simpa using hw, ?_, ?_⟩
              · simp only [mfuScan]
                rw [if_pos hw]
                simpa using mfuScan_all_le t ws' h w hlen hall
              · intro j hj
                match j with
                | 0 => exact Nat.le_refl _
                | j' + 1 =>
                    have hj' : j' < ws'.length := by simpa using hj
                    simp only [List.get_cons_succ]
                    simpa using hall (ws'.get ⟨j', hj'⟩) (List.get_mem ws' j' hj')
              · intro j hj
                exact absurd hj (Nat.not_lt_zero j)
            · push_neg at hall
              obtain ⟨x, hx, hxw⟩ := hall
              obtain ⟨i, hi, hi2, hres, hmin, hmax, hearly⟩ :=
                ih ws' h w hlen ⟨x, hx, hxw⟩
              refine ⟨i + 1, Nat.succ_lt_succ hi, Nat.succ_lt_succ hi2, ?_, ?_, ?_, ?_⟩
              · simp only [mfuScan]
                rw [if_pos hw, hres]
                simp
              · simpa using Nat.lt_trans hw hmin
              · intro j hj
                match j with
                | 0 => simpa using Nat.le_of_lt hmin
                | j' + 1 =>
                    simp only [List.get_cons_succ]
                    exact hmax j' (by simpa using hj)
              · intro j hj
                match j with
                | 0 => simpa using hmin
                | j' + 1 =>
                    simp only [List.get_cons_succ]
                    exact hearly j' (by omega)
          · have hex' : ∃ x ∈ ws', minw < x := by
              obtain ⟨x, hx, hxm⟩ := hex
              rcases List.mem_cons.mp hx with h1 | h1
              · exact absurd hxm (by omega)
              · exact ⟨x, h1, hxm⟩
            obtain ⟨i, hi, hi2, hres, hmin, hmax, hearly⟩ :=
              ih ws' best minw hlen hex'
            refine ⟨i + 1, Nat.succ_lt_succ hi, Nat.succ_lt_succ hi2, ?_, ?_, ?_, ?_⟩
            · simp only [mfuScan]
              rw [if_neg hw, hres]
              simp
            · simpa using hmin
            · intro j hj
              match j with
              | 0 => simpa using Nat.le_of_lt (Nat.lt_of_le_of_lt (by omega) hmin)
              | j' + 1 =>
                  simp only [List.get_cons_succ]
                  exact hmax j' (by simpa using hj)
            · intro j hj
              match j with
              | 0 => simpa using Nat.lt_of_le_of_lt (by omega : w ≤ minw) hmin
              | j' + 1 =>
                  simp only [List.get_cons_succ]
                  exact hearly j' (by omega)

/-- Claim C2: `predict` returns as MFU the node's `mru_successor` when
the successor list is empty, and otherwise the successor with the
strictly greatest weight, ties resolved in favour of the successor that
appears earliest in the parallel arrays; in particular a node with two
successors `(X, Y)` both at weight 5 yields `X`, and with the insertion
order reversed yields `Y`.  (Weights of reachable nodes are positive:
they start at 1, see C3.) -/
theorem c2_predict_mfu_spec (nd : PredData)
    (hlen : nd.mfu_context_hash_list.length = nd.mfu_weight_list.length)
    (hpos : ∀ w ∈ nd.mfu_weight_list, 0 < w) :
    (nd.mfu_context_hash_list = [] → predictMfu nd = nd.mru_context_hash) ∧
    (nd.mfu_context_hash_list ≠ [] →
      ∃ i, ∃ hi : i < nd.mfu_context_hash_list.length,
        ∃ hi2 : i < nd.mfu_weight_list.length,
        predictMfu nd = nd.mfu_context_hash_list.get ⟨i, hi⟩ ∧
        (∀ j (hj : j < nd.mfu_weight_list.length),
          nd.mfu_weight_list.get ⟨j, hj⟩ ≤ nd.mfu_weight_list.get ⟨i, hi2⟩) ∧
        (∀ j (hj : j < i),
          nd.mfu_weight_list.get ⟨j, Nat.lt_trans hj hi2⟩ <
            nd.mfu_weight_list.get ⟨i, hi2⟩)) ∧
    (∀ x y m : Nat, predictMfu ⟨m, [x, y], [5, 5]⟩ = x ∧
      predictMfu ⟨m, [y, x], [5, 5]⟩ = y) := by
  refine ⟨?_, ?_, ?_⟩
  · intro hnil
    simp [predictMfu, hnil]
  · intro hne
    have hex : ∃ w ∈ nd.mfu_weight_list, 0 < w := by
      cases hws : nd.mfu_weight_list with
      | nil =>
          rw [hws] at hlen
          exact absurd (List.length_eq_zero.mp (by simpa using hlen)) hne
      | cons a l => exact ⟨a, by simp [hws], hpos a (by simp [hws])⟩
    obtain ⟨i, hi, hi2, hres, _, hmax, hearly⟩ :=
      mfuScan_spec nd.mfu_context_hash_list nd.mfu_weight_list 0 0 hlen hex
    refine ⟨i, hi, hi2, ?_, hmax, hearly⟩
    rw [predictMfu, if_neg (by simpa using fun h0 => hne (List.length_eq_zero.mp h0))]
    exact hres
  · intro x y m
    constructor <;> simp [predictMfu, mfuScan]

/-- Witness for C2: the tie-break scenario of the claim at concrete
hashes `X = 1`, `Y = 2`. -/
theorem c2_witness :
    predictMfu ⟨0, [1, 2], [5, 5]⟩ = 1 ∧ predictMfu ⟨0, [2, 1], [5, 5]⟩ = 2 :=
  (c2_predict_mfu_spec ⟨0, [9], [1]⟩ (by decide) (by decide)).2.2 1 2 0

end Griot

namespace Griot

/-! ### Per-open pipeline lemmas for C1, C5, C6, C7 -/

theorem borrowUpdate_none (table : Nat → Option PredData) (prev : Option Nat)
    (ch x : Nat) (hx : table x = none) : borrowUpdate table prev ch x = none := by
  rcases prev with _ | k
  · simpa [borrowUpdate] using hx
  · simp only [borrowUpdate]
    by_cases hk : x = k
    · subst hk
      simp [hx]
    · simp [hk, hx]

theorem getOrCreate_self (table : Nat → Option PredData) (ch : Nat) (fresh : PredData) :
    (getOrCreate table ch fresh).1 ch = some (getOrCreate table ch fresh).2 := by
  simp only [getOrCreate]
  cases h : table ch <;> simp [h]

theorem getOrCreate_of_none (table : Nat → Option PredData) (ch : Nat) (fresh : PredData)
    (h : table ch = none) : (getOrCreate table ch fresh).2 = fresh := by
  simp [getOrCreate, h]

theorem fd_step_ctx (r : Results) (d : PerOpen.PerFdData) (e : IoEvent) :
    (PerOpen.fd_step r d e).2.ctx = ctxPush d.ctx e.call_stack := by
  simp [PerOpen.fd_step]

theorem fd_step_table_self (r : Results) (d : PerOpen.PerFdData) (e : IoEvent) :
    (PerOpen.fd_step r d e).2.prediction_table
      (contextHash (ctxPush d.ctx e.call_stack)) ≠ none := by
  simp only [PerOpen.fd_step]
  rw [getOrCreate_self]
  simp

theorem fd_step_mru_of_absent (r : Results) (d : PerOpen.PerFdData) (e : IoEvent)
    (hnew : d.prediction_table (contextHash (ctxPush d.ctx e.call_stack)) = none) :
    (PerOpen.fd_step r d e).2.mru_prediction =
      contextHash (ctxPush d.ctx e.call_stack) := by
  simp only [PerOpen.fd_step]
  rw [getOrCreate_of_none _ _ _ (borrowUpdate_none _ _ _ _ hnew)]

theorem po_resolveFd_none (s : PerOpen.ModelState) (fd : Nat)
    (h : s.per_fd_data fd = none) :
    PerOpen.resolveFd s fd = (PerOpen.on_open s fd, PerOpen.freshFdData s.context_size) := by
  simp [PerOpen.resolveFd, h]

theorem po_resolveFd_some (s : PerOpen.ModelState) (fd : Nat) (d : PerOpen.PerFdData)
    (h : s.per_fd_data fd = some d) : PerOpen.resolveFd s fd = (s, d) := by
  simp [PerOpen.resolveFd, h]

theorem po_on_open_lookup (s : PerOpen.ModelState) (fd : Nat) :
    (PerOpen.on_open s fd).per_fd_data fd =
      some (PerOpen.freshFdData s.context_size) := by
  simp [PerOpen.on_open]

theorem po_on_close_removes (s : PerOpen.ModelState) (fd : Nat) (d : PerOpen.PerFdData)
    (h : s.per_fd_data fd = some d) :
    (PerOpen.on_close s fd).per_fd_data fd = none := by
  simp [PerOpen.on_close, h]

/-- Claim C5: in the per-open variant, when the current context hash has
no node in the fd's prediction table, the freshly created node is
pre-seeded with `mru_successor = context_hash`, so the MRU prediction
emitted for a first-seen context equals that context hash (a self-loop)
rather than 0. -/
theorem c5_fresh_node_self_loop (s : PerOpen.ModelState) (e : IoEvent)
    (d : PerOpen.PerFdData)
    (hop : e.op = OpType.GRIOT_READ)
    (hfd : s.per_fd_data e.fd = some d)
    (hnew : d.prediction_table (contextHash (ctxPush d.ctx e.call_stack)) = none) :
    ∃ d', (PerOpen.on_io s e).per_fd_data e.fd = some d' ∧
      d'.mru_prediction = contextHash (ctxPush d.ctx e.call_stack) := by
  refine ⟨(PerOpen.fd_step (statsUpdate s.results e) d e).2, ?_,
    fd_step_mru_of_absent _ d e hnew⟩
  simp only [PerOpen.on_io, hop]
  simp [po_resolveFd_some s e.fd d hfd]

/-- Witness for C5 at a concrete first-seen context: a read on a freshly
opened fd 3 predicts the just-computed context hash as MRU. -/
theorem c5_witness :
    ∃ d', (PerOpen.on_io (PerOpen.on_open (PerOpen.griot_init 1) 3)
        ⟨42, 3, 10, 7, OpType.GRIOT_READ, 0, 0⟩).per_fd_data 3 = some d' ∧
      d'.mru_prediction = contextHash (ctxPush (ctxInit 1) 42) :=
  c5_fresh_node_self_loop (PerOpen.on_open (PerOpen.griot_init 1) 3)
    ⟨42, 3, 10, 7, OpType.GRIOT_READ, 0, 0⟩ (PerOpen.freshFdData 1) rfl rfl rfl

/-- Claim C6: in the per-open variant, a close on an fd with no per-fd
entry leaves the whole engine state unchanged, while a read or write on
an fd with no per-fd entry behaves exactly as if the fd had first been
opened (implicit open) and the event then processed normally. -/
theorem c6_unknown_fd (s : PerOpen.ModelState) (e : IoEvent) (fd : Nat)
    (hunknown : s.per_fd_data fd = none) :
    PerOpen.on_close s fd = s ∧
    (e.fd = fd → e.op = OpType.GRIOT_READ ∨ e.op = OpType.GRIOT_WRITE →
      PerOpen.on_io s e = PerOpen.on_io (PerOpen.on_open s fd) e) := by
  constructor
  · simp [PerOpen.on_close, hunknown]
  · intro hefd hop
    subst hefd
    rcases hop with h | h <;>
      simp only [PerOpen.on_io, h, reduceCtorEq, if_false] <;>
      rw [po_resolveFd_none s e.fd hunknown,
        po_resolveFd_some (PerOpen.on_open s e.fd) e.fd _ (po_on_open_lookup s e.fd),
        po_on_open_results]

/-- Witness for C6 at a concrete state: on a fresh engine, a close of
fd 9 is a no-op and a read on unknown fd 9 equals open-then-read. -/
theorem c6_witness :
    PerOpen.on_close (PerOpen.griot_init 4) 9 = PerOpen.griot_init 4 ∧
    PerOpen.on_io (PerOpen.griot_init 4) ⟨5, 9, 1, 1, OpType.GRIOT_READ, 0, 0⟩ =
      PerOpen.on_io (PerOpen.on_open (PerOpen.griot_init 4) 9)
        ⟨5, 9, 1, 1, OpType.GRIOT_READ, 0, 0⟩ :=
  ⟨(c6_unknown_fd (PerOpen.griot_init 4) ⟨5, 9, 1, 1, OpType.GRIOT_READ, 0, 0⟩ 9 rfl).1,
   (c6_unknown_fd (PerOpen.griot_init 4) ⟨5, 9, 1, 1, OpType.GRIOT_READ, 0, 0⟩ 9 rfl).2
     rfl (Or.inl rfl)⟩

/-- Claim C7: in the per-open variant, an OPEN event runs `on_open`
before the prediction pipeline, so right after the event the fd's
context window already ends with the open event's call-stack hash and
its graph holds a node for the resulting context; a CLOSE event runs
`on_close` only after the whole pipeline, so the traffic counters have
been advanced by the close event and only then is the per-fd state
destroyed. -/
theorem c7_open_first_close_last (s : PerOpen.ModelState) (e : IoEvent)
    (hC : 0 < s.context_size) :
    (e.op = OpType.GRIOT_OPEN →
      ∃ d', (PerOpen.on_io s e).per_fd_data e.fd = some d' ∧
        (orderedContext d'.ctx).getLast? = some e.call_stack ∧
        d'.prediction_table (contextHash d'.ctx) ≠ none) ∧
    (e.op = OpType.GRIOT_CLOSE →
      (PerOpen.on_io s e).per_fd_data e.fd = none ∧
      (PerOpen.on_io s e).results.io_count = s.results.io_count + 1 ∧
      (PerOpen.on_io s e).results.call_stack_instrumentation_count =
        s.results.call_stack_instrumentation_count + 1) := by
  constructor
  · intro hop
    have hfresh : (PerOpen.freshFdData s.context_size).ctx = ctxInit s.context_size := rfl
    refine ⟨(PerOpen.fd_step (statsUpdate s.results e)
      (PerOpen.freshFdData s.context_size) e).2, ?_, ?_, ?_⟩
    · simp only [PerOpen.on_io, hop, reduceCtorEq, if_true, if_false]
      rw [po_resolveFd_some (PerOpen.on_open s e.fd) e.fd _ (po_on_open_lookup s e.fd),
        po_on_open_results]
    · rw [fd_step_ctx, hfresh, orderedContext_push _ _ (by simp [ctxInit]; omega)]
      exact List.getLast?_concat _
    · rw [fd_step_ctx]
      exact fd_step_table_self _ _ e
  · intro hop
    refine ⟨?_, po_on_io_io s e, po_on_io_csi s e⟩
    simp only [PerOpen.on_io, hop, reduceCtorEq, if_false, if_true]
    exact po_on_close_removes _ e.fd
      (PerOpen.fd_step (statsUpdate s.results e) (PerOpen.resolveFd s e.fd).2 e).2
      (by simp)

/-- Witness for C7 at a concrete OPEN event on a fresh engine. -/
theorem c7_witness :
    ∃ d', (PerOpen.on_io (PerOpen.griot_init 2)
        ⟨5, 3, 0, 0, OpType.GRIOT_OPEN, 0, 0⟩).per_fd_data 3 = some d' ∧
      (orderedContext d'.ctx).getLast? = some 5 ∧
      d'.prediction_table (contextHash d'.ctx) ≠ none :=
  (c7_open_first_close_last (PerOpen.griot_init 2)
    ⟨5, 3, 0, 0, OpType.GRIOT_OPEN, 0, 0⟩ (by decide)).1 rfl

/-- Claim C1 fails on the per-open variant: at a per-fd state whose
previous MRU prediction is 1 — neither 0 nor the new context hash — but
whose previous MFU prediction is 0, a read from the same call-stack site
is counted as an MRU hit, because the MRU cold fallback of
`per-open/griot_model.c` line 285 tests `mfu_prediction == 0` where the
claim (and the per-process variant, line 165) require
`mru_prediction == 0`. -/
theorem c1_per_open_mru_fallback_divergence :
    (PerOpen.on_io mruFallbackState mruFallbackEvent).results.mru_correct_prediction_count
      = 1 ∧
    mruFallbackFdData.mru_prediction ≠
      contextHash (ctxPush mruFallbackFdData.ctx mruFallbackEvent.call_stack) ∧
    mruFallbackFdData.mru_prediction ≠ 0 ∧
    mruFallbackFdData.previous_call_stack = mruFallbackEvent.call_stack ∧
    mruFallbackFdData.mfu_prediction = 0 := by
  exact ⟨by decide, by decide, by decide, rfl, rfl⟩

end Griot
